import Mathlib

/-!
Verification of the radye preprocessing pipeline (src/radye/utilities.py and
src/radye/preprocessor.py) against its natural-language specification.

The voxel-level functions (find_zeros, crop_scans, the masking step) are
embedded as pure Lean functions over a 3-D volume type; the orchestration
logic of the Preprocessor class is embedded as pure decision functions and
event traces.
-/

namespace Radye

/-- A 3-D voxel array: three dimensions and a total data function giving the
voxel value at integer indices (values outside the dimensions are irrelevant
to every definition below).  Voxel values are modelled as integers; the only
operation the code performs on them is comparison with zero. -/
structure Vol where
  xdim : Nat
  ydim : Nat
  zdim : Nat
  data : Nat → Nat → Nat → Int

/-- Number of zero voxels in a p × q plane described by the value function
`f` (this is the per-index entry of `np.bincount` over the zero positions
along one axis in find_zeros). -/
def planeZeroCount (p q : Nat) (f : Nat → Nat → Int) : Nat :=
  ((Finset.range p ×ˢ Finset.range q).filter (fun t => f t.1 t.2 = 0)).card

/-- Minimum of a list of naturals, `none` on the empty list (Python's
builtin `min`, which raises on an empty sequence). -/
def listMin : List Nat → Option Nat
  | [] => none
  | a :: l =>
    match listMin l with
    | none => some a
    | some b => some (min a b)

/-- Maximum of a list of naturals, `none` on the empty list (Python's
builtin `max`, which raises on an empty sequence). -/
def listMax : List Nat → Option Nat
  | [] => none
  | a :: l =>
    match listMax l with
    | none => some a
    | some b => some (max a b)

/-- The axis indices whose orthogonal plane contains at least one zero
voxel (the distinct values occurring in the `np.where(img == 0)` output for
this axis). -/
def zeroList (dim : Nat) (count : Nat → Nat) : List Nat :=
  (List.range dim).filter (fun i => 0 < count i)

/-- The `np.where(np.bincount(zeros) < total)` result: the bincount array
has length `m + 1` where `m` is the largest index whose plane contains a
zero voxel, so only indices up to `m` are tested. -/
def keptList (total : Nat) (count : Nat → Nat) (m : Nat) : List Nat :=
  (List.range (m + 1)).filter (fun i => count i < total)

/-- One axis of find_zeros.  `count i` is the number of zero voxels in the
orthogonal plane at index `i` and `total` is the plane's voxel count.
`np.bincount` of the zero positions along the axis has length
`max(zero positions) + 1`, so `np.where(bincount < total)` ranges only over
indices up to the largest index whose plane contains a zero voxel; if there
is no zero voxel at all, or no index in that range survives the `< total`
test, `min`/`max` raise and the except-branch returns the full extent
`(0, dim)`. -/
def axisBounds (dim total : Nat) (count : Nat → Nat) : Nat × Nat :=
  match listMax (zeroList dim count) with
  | none => (0, dim)
  | some m =>
    match listMin (keptList total count m), listMax (keptList total count m) with
    | some lo, some hi => (lo, hi + 1)
    | _, _ => (0, dim)

/-- Zero-count along the x axis: zeros in the y-z plane at x-index `i`. -/
def xZeroCount (v : Vol) (i : Nat) : Nat :=
  planeZeroCount v.ydim v.zdim (fun j k => v.data i j k)

/-- Zero-count along the y axis: zeros in the x-z plane at y-index `j`. -/
def yZeroCount (v : Vol) (j : Nat) : Nat :=
  planeZeroCount v.xdim v.zdim (fun i k => v.data i j k)

/-- Zero-count along the z axis: zeros in the x-y plane at z-index `k`. -/
def zZeroCount (v : Vol) (k : Nat) : Nat :=
  planeZeroCount v.xdim v.ydim (fun i j => v.data i j k)

/-- The x-axis pair (x_min, x_max) computed by find_zeros. -/
def xBounds (v : Vol) : Nat × Nat :=
  axisBounds v.xdim (v.ydim * v.zdim) (xZeroCount v)

/-- The y-axis pair (y_min, y_max) computed by find_zeros. -/
def yBounds (v : Vol) : Nat × Nat :=
  axisBounds v.ydim (v.xdim * v.zdim) (yZeroCount v)

/-- The z-axis pair (z_min, z_max) computed by find_zeros. -/
def zBounds (v : Vol) : Nat × Nat :=
  axisBounds v.zdim (v.xdim * v.ydim) (zZeroCount v)

/-- utilities.find_zeros on a 3-D array: returns
(x_min, x_max, y_min, y_max, z_min, z_max). -/
def find_zeros (v : Vol) : Nat × Nat × Nat × Nat × Nat × Nat :=
  ((xBounds v).1, (xBounds v).2, (yBounds v).1, (yBounds v).2,
    (zBounds v).1, (zBounds v).2)

/-- sitk.Crop: removes `low*` voxels from the low side and `high*` voxels
from the high side of each axis; the voxel at output index (i, j, k) is the
input voxel at (i + lowX, j + lowY, k + lowZ). -/
def sitkCrop (v : Vol) (lowX lowY lowZ highX highY highZ : Nat) : Vol :=
  { xdim := v.xdim - lowX - highX
    ydim := v.ydim - lowY - highY
    zdim := v.zdim - lowZ - highZ
    data := fun i j k => v.data (i + lowX) (j + lowY) (k + lowZ) }

/-- utilities.crop_scans: computes find_zeros on the reference volume, turns
the exclusive upper bounds into high-side trim amounts
(dimension − upper bound), and crops every input volume by the same
low/high amounts. -/
def crop_scans (reference : Vol) (inputs : List Vol) : List Vol :=
  match find_zeros reference with
  | (x_min, x_max, y_min, y_max, z_min, z_max) =>
    let highX := reference.xdim - x_max
    let highY := reference.ydim - y_max
    let highZ := reference.zdim - z_max
    inputs.map (fun image => sitkCrop image x_min y_min z_min highX highY highZ)

/-- A volumetric image together with its spatial metadata (the affine,
kept opaque: the masking code only reads it from the resampled file and
writes it back unchanged). -/
structure NiftiImage where
  affine : Int
  vol : Vol

/-- Preprocessor._apply_mask: resample the input onto the reference grid
(nearest-neighbor resampling is performed by the external collaborator
`resample`, passed here as a function), then zero every voxel where the mask
volume is zero, reusing the resampled image's affine. -/
def apply_mask (resample : NiftiImage → NiftiImage → NiftiImage)
    (input_img ref_img mask : NiftiImage) : NiftiImage :=
  let output_img := resample input_img ref_img
  { affine := output_img.affine
    vol := { output_img.vol with
      data := fun i j k =>
        if mask.vol.data i j k = 0 then 0 else output_img.vol.data i j k } }

/-- The five registration actions of the coregistration stage. -/
inductive CoregAction where
  /-- Affine registration of the reference modality onto the MNI atlas. -/
  | anchorToAtlas
  /-- Apply the reference's atlas transform chain with linear
  interpolation; no new registration. -/
  | reuseAnchorChain
  /-- Affine registration of the modality onto the atlas-warped
  reference. -/
  | registerOntoAtlasReference
  /-- Read the image and save it unchanged. -/
  | passThroughSave
  /-- Affine registration of the modality onto the unmodified reference. -/
  | registerOntoUnmodifiedReference
deriving DecidableEq

/-- One registration action executed for one modality. -/
structure CoregEvent where
  modality : String
  action : CoregAction
deriving DecidableEq

/-- The action Preprocessor._run_coregistration executes for the reference
modality: lines 162-191 of preprocessor.py. -/
def referenceAction (to_mni : Bool) : CoregAction :=
  if to_mni then CoregAction.anchorToAtlas else CoregAction.passThroughSave

/-- The action Preprocessor._run_coregistration executes for a non-reference
modality: the nested conditionals of lines 196-226 of preprocessor.py.  When
do_coregistration is false the code registers the modality onto
img_reference, which is the atlas-warped reference if to_mni was set and the
unmodified reference otherwise. -/
def nonReferenceAction (to_mni do_coregistration : Bool) : CoregAction :=
  if do_coregistration then
    if to_mni then CoregAction.reuseAnchorChain
    else CoregAction.passThroughSave
  else
    if to_mni then CoregAction.registerOntoAtlasReference
    else CoregAction.registerOntoUnmodifiedReference

/-- Event trace of Preprocessor._run_coregistration: the reference modality
is processed first, then every other modality (the modality list with the
reference removed) in order. -/
def runCoregistration (modalities : List String) (reference : String)
    (to_mni do_coregistration : Bool) : List CoregEvent :=
  { modality := reference, action := referenceAction to_mni } ::
    (modalities.erase reference).map
      (fun mod =>
        { modality := mod, action := nonReferenceAction to_mni do_coregistration })

/-- The spec's branch table (section 4.3): which of the five documented
actions runs, as a pure function of the three booleans to_mni,
do_coregistration and is_reference.  Written from the spec's words, to be
compared with the dispatch embedded from the code. -/
def specFiveBranchTable (to_mni do_coregistration is_reference : Bool) :
    CoregAction :=
  if is_reference then
    if to_mni then CoregAction.anchorToAtlas else CoregAction.passThroughSave
  else if to_mni then
    if do_coregistration then CoregAction.reuseAnchorChain
    else CoregAction.registerOntoAtlasReference
  else
    if do_coregistration then CoregAction.passThroughSave
    else CoregAction.registerOntoUnmodifiedReference

/-- The three pipeline stages. -/
inductive Stage where
  | coregistration
  | skullstripping
  | cropping
deriving DecidableEq

/-- Preprocessor.run: coregistration unconditionally, then skull-stripping
when do_skull_stripping is set, then cropping when crop is set. -/
def runStages (do_skull_stripping crop : Bool) : List Stage :=
  [Stage.coregistration]
    ++ (if do_skull_stripping then [Stage.skullstripping] else [])
    ++ (if crop then [Stage.cropping] else [])

/-- A directory path, as a list of components. -/
abbrev DirPath := List String

/-- The stage folders resolved by Preprocessor.__init__. -/
structure StageFolders where
  coregistration_folder : DirPath
  skullstrip_folder : DirPath
  cropping_folder : Option DirPath

/-- Folder resolution of Preprocessor.__init__ lines 115-125: the
skull-strip folder is a fresh skullstripping directory when
do_skull_stripping is set and the coregistration folder itself otherwise;
the cropping folder exists only when crop is set. -/
def resolveFolders (output_folder : DirPath) (do_skull_stripping crop : Bool) :
    StageFolders :=
  let coreg := output_folder ++ ["coregistration"]
  { coregistration_folder := coreg
    skullstrip_folder :=
      if do_skull_stripping then output_folder ++ ["skullstripping"] else coreg
    cropping_folder :=
      if crop then some (output_folder ++ ["cropping"]) else none }

/-- The input files read by Preprocessor._run_cropping: one per modality
under the skull-strip folder, plus the label file when a label is present. -/
def croppingInputPaths (folders : StageFolders) (pre : String)
    (modalities : List String) (has_label : Bool) : List DirPath :=
  (modalities.map
    (fun mod => folders.skullstrip_folder ++ [pre ++ mod ++ ".nii.gz"]))
    ++ (if has_label then [folders.skullstrip_folder ++ [pre ++ "Label.nii.gz"]]
        else [])

/-- Python's string comparison: lexicographic order on the character
sequences. -/
def pyLe (a b : String) : Prop := a.data ≤ b.data

instance : DecidableRel pyLe :=
  fun a b => inferInstanceAs (Decidable (a.data ≤ b.data))

instance : IsTotal String pyLe := ⟨fun a b => le_total a.data b.data⟩

instance : IsTrans String pyLe := ⟨fun _ _ _ hab hbc => le_trans hab hbc⟩

/-- Python's sorted on a list of strings (ascending lexicographic order). -/
def pySorted (l : List String) : List String :=
  l.insertionSort pyLe

/-- The failures Preprocessor.__init__ can raise. -/
inductive InitError where
  /-- sorted(keys)[0] on an empty mapping. -/
  | indexError
  /-- The assertion that an explicit reference is a key of subject_dict. -/
  | badReference
  /-- The assertion that a subject image path exists. -/
  | missingImage (mod : String)
  /-- The assertion that the label path exists. -/
  | missingLabel
deriving DecidableEq

/-- Reference selection of Preprocessor.__init__ lines 96-101: the first
element of the sorted modality names when no reference is given, otherwise
the given reference after asserting it is one of the modality names. -/
def chooseReference (mods : List String) (reference : Option String) :
    Except InitError String :=
  match reference with
  | none =>
    match pySorted mods with
    | [] => Except.error InitError.indexError
    | r :: _ => Except.ok r
  | some r =>
    if r ∈ mods then Except.ok r else Except.error InitError.badReference

/-- Lines 104-106 of preprocessor.py: assert, for each modality in order,
that its image path exists; the first missing one raises. -/
def checkImages (fs : String → Bool) (subject : List (String × String)) :
    Except InitError Unit :=
  match subject.find? (fun p => ! fs p.2) with
  | some p => Except.error (InitError.missingImage p.1)
  | none => Except.ok ()

/-- Lines 107-108 of preprocessor.py: assert the label path exists when a
label path was supplied. -/
def checkLabel (fs : String → Bool) (label : Option String) :
    Except InitError Unit :=
  match label with
  | some lp =>
    if fs lp then Except.ok () else Except.error InitError.missingLabel
  | none => Except.ok ()

/-- The validation performed by Preprocessor.__init__ (lines 96-108), over
an abstract file system `fs` telling which paths exist: choose the
reference, then assert every subject image path exists, then assert the
label path (when given) exists.  Returns the chosen reference on success;
no stage processing happens here (stages only run from Preprocessor.run). -/
def initPreprocessor (fs : String → Bool) (subject : List (String × String))
    (label : Option String) (reference : Option String) :
    Except InitError String :=
  match chooseReference (subject.map Prod.fst) reference with
  | Except.error e => Except.error e
  | Except.ok ref =>
    match checkImages fs subject with
    | Except.error e => Except.error e
    | Except.ok _ =>
      match checkLabel fs label with
      | Except.error e => Except.error e
      | Except.ok _ => Except.ok ref

/-- A 4 × 1 × 1 volume whose voxels along x are 0, 5, 0, 7: the last plane
holds a non-zero voxel and contains no zero, while an interior plane is
uniformly zero. -/
def vTrunc : Vol :=
  { xdim := 4, ydim := 1, zdim := 1,
    data := fun i _ _ => if i = 1 then 5 else if i = 3 then 7 else 0 }

/-- A 3 × 3 × 3 volume whose only non-zero voxel is the centre: a core
strictly surrounded by zero padding on every axis. -/
def vCore : Vol :=
  { xdim := 3, ydim := 3, zdim := 3,
    data := fun i j k => if i = 1 ∧ j = 1 ∧ k = 1 then 1 else 0 }

/-- A 2 × 2 × 2 volume with no zero voxel at all. -/
def vDense : Vol :=
  { xdim := 2, ydim := 2, zdim := 2, data := fun _ _ _ => 1 }

/-- A concrete image for checks. -/
def wImg : NiftiImage := { affine := 7, vol := vDense }

/-- A concrete binary mask for checks: 0 on the plane x = 0, 1 elsewhere. -/
def wMask : NiftiImage :=
  { affine := 3,
    vol := { xdim := 2, ydim := 2, zdim := 2,
             data := fun i _ _ => if i = 0 then 0 else 1 } }

/-- A concrete file system for checks: exactly two paths exist. -/
def wfs : String → Bool := fun p => p == "a.nii" || p == "lab.nii"

/-- A concrete subject mapping for checks. -/
def wsubject : List (String × String) := [("T2", "a.nii"), ("T1", "a.nii")]

theorem listMin_eq_none {l : List Nat} : listMin l = none ↔ l = [] := by
  cases l with
  | nil => simp [listMin]
  | cons a t => cases h : listMin t <;> simp [listMin, h]

theorem listMax_eq_none {l : List Nat} : listMax l = none ↔ l = [] := by
  cases l with
  | nil => simp [listMax]
  | cons a t => cases h : listMax t <;> simp [listMax, h]

theorem listMin_mem {l : List Nat} {m : Nat} (h : listMin l = some m) :
    m ∈ l := by
  induction l generalizing m with
  | nil => simp [listMin] at h
  | cons a t ih =>
    rw [listMin] at h
    cases ht : listMin t with
    | none =>
      rw [ht] at h
      simp at h
      simp [h]
    | some b =>
      rw [ht] at h
      injection h with h
      rcases Nat.le_total a b with h1 | h1
      · have hma : m = a := by omega
        simp [hma]
      · have hmb : m = b := by omega
        exact List.mem_cons_of_mem a (hmb ▸ ih ht)

theorem listMax_mem {l : List Nat} {m : Nat} (h : listMax l = some m) :
    m ∈ l := by
  induction l generalizing m with
  | nil => simp [listMax] at h
  | cons a t ih =>
    rw [listMax] at h
    cases ht : listMax t with
    | none =>
      rw [ht] at h
      simp at h
      simp [h]
    | some b =>
      rw [ht] at h
      injection h with h
      rcases Nat.le_total a b with h1 | h1
      · have hmb : m = b := by omega
        exact List.mem_cons_of_mem a (hmb ▸ ih ht)
      · have hma : m = a := by omega
        simp [hma]

theorem listMin_le {l : List Nat} {m : Nat} (h : listMin l = some m) :
    ∀ a ∈ l, m ≤ a := by
  induction l generalizing m with
  | nil => intro a ha; simp at ha
  | cons b t ih =>
    intro a ha
    rw [listMin] at h
    cases ht : listMin t with
    | none =>
      rw [ht] at h
      simp at h
      have hnil : t = [] := listMin_eq_none.mp ht
      subst hnil
      simp at ha
      omega
    | some c =>
      rw [ht] at h
      injection h with h
      rcases List.mem_cons.mp ha with rfl | hat
      · omega
      · have := ih ht a hat
        omega

theorem le_listMax {l : List Nat} {m : Nat} (h : listMax l = some m) :
    ∀ a ∈ l, a ≤ m := by
  induction l generalizing m with
  | nil => intro a ha; simp at ha
  | cons b t ih =>
    intro a ha
    rw [listMax] at h
    cases ht : listMax t with
    | none =>
      rw [ht] at h
      simp at h
      have hnil : t = [] := listMax_eq_none.mp ht
      subst hnil
      simp at ha
      omega
    | some c =>
      rw [ht] at h
      injection h with h
      rcases List.mem_cons.mp ha with rfl | hat
      · omega
      · have := ih ht a hat
        omega

theorem listMin_eq_of {l : List Nat} {a : Nat} (hmem : a ∈ l)
    (hbd : ∀ b ∈ l, a ≤ b) : listMin l = some a := by
  cases hm : listMin l with
  | none =>
    rw [listMin_eq_none] at hm
    subst hm
    simp at hmem
  | some m =>
    have h1 : m ∈ l := listMin_mem hm
    have h2 : m ≤ a := listMin_le hm a hmem
    have h3 : a ≤ m := hbd m h1
    rw [Nat.le_antisymm h2 h3]

theorem listMax_eq_of {l : List Nat} {a : Nat} (hmem : a ∈ l)
    (hbd : ∀ b ∈ l, b ≤ a) : listMax l = some a := by
  cases hm : listMax l with
  | none =>
    rw [listMax_eq_none] at hm
    subst hm
    simp at hmem
  | some m =>
    have h1 : m ∈ l := listMax_mem hm
    have h2 : a ≤ m := le_listMax hm a hmem
    have h3 : m ≤ a := hbd m h1
    rw [Nat.le_antisymm h3 h2]

theorem planeZeroCount_le (p q : Nat) (f : Nat → Nat → Int) :
    planeZeroCount p q f ≤ p * q := by
  have h := Finset.card_filter_le (Finset.range p ×ˢ Finset.range q)
    (fun t => f t.1 t.2 = 0)
  rw [Finset.card_product, Finset.card_range, Finset.card_range] at h
  exact h

theorem planeZeroCount_lt_iff (p q : Nat) (f : Nat → Nat → Int) :
    planeZeroCount p q f < p * q ↔ ∃ j < p, ∃ k < q, f j k ≠ 0 := by
  unfold planeZeroCount
  constructor
  · intro h
    by_contra hc
    push_neg at hc
    have heq : (Finset.range p ×ˢ Finset.range q).filter
        (fun t => f t.1 t.2 = 0) = Finset.range p ×ˢ Finset.range q := by
      apply Finset.filter_true_of_mem
      intro x hx
      have hx2 := Finset.mem_product.mp hx
      exact hc x.1 (Finset.mem_range.mp hx2.1) x.2 (Finset.mem_range.mp hx2.2)
    rw [heq, Finset.card_product, Finset.card_range, Finset.card_range] at h
    omega
  · rintro ⟨j, hj, k, hk, hne⟩
    have hss : (Finset.range p ×ˢ Finset.range q).filter
        (fun t => f t.1 t.2 = 0) ⊂ Finset.range p ×ˢ Finset.range q := by
      rw [Finset.filter_ssubset]
      exact ⟨(j, k),
        Finset.mem_product.mpr ⟨Finset.mem_range.mpr hj, Finset.mem_range.mpr hk⟩,
        hne⟩
    have hlt := Finset.card_lt_card hss
    rwa [Finset.card_product, Finset.card_range, Finset.card_range] at hlt

theorem planeZeroCount_eq_total (p q : Nat) (f : Nat → Nat → Int)
    (h : ∀ j < p, ∀ k < q, f j k = 0) : planeZeroCount p q f = p * q := by
  unfold planeZeroCount
  rw [Finset.filter_true_of_mem, Finset.card_product, Finset.card_range,
    Finset.card_range]
  intro x hx
  obtain ⟨h1, h2⟩ := Finset.mem_product.mp hx
  exact h x.1 (Finset.mem_range.mp h1) x.2 (Finset.mem_range.mp h2)

theorem planeZeroCount_eq_zero (p q : Nat) (f : Nat → Nat → Int)
    (h : ∀ j < p, ∀ k < q, f j k ≠ 0) : planeZeroCount p q f = 0 := by
  unfold planeZeroCount
  rw [Finset.card_eq_zero, Finset.filter_eq_empty_iff]
  intro x hx
  obtain ⟨h1, h2⟩ := Finset.mem_product.mp hx
  exact h x.1 (Finset.mem_range.mp h1) x.2 (Finset.mem_range.mp h2)

theorem axisBounds_eq_of_no_zero (dim total : Nat) (count : Nat → Nat)
    (h : listMax (zeroList dim count) = none) :
    axisBounds dim total count = (0, dim) := by
  unfold axisBounds
  rw [h]

theorem axisBounds_eq_of_kept (dim total : Nat) (count : Nat → Nat)
    (m lo hi : Nat) (h : listMax (zeroList dim count) = some m)
    (h2 : listMin (keptList total count m) = some lo)
    (h3 : listMax (keptList total count m) = some hi) :
    axisBounds dim total count = (lo, hi + 1) := by
  unfold axisBounds
  rw [h]
  show (match listMin (keptList total count m),
      listMax (keptList total count m) with
    | some lo, some hi => (lo, hi + 1)
    | _, _ => (0, dim)) = (lo, hi + 1)
  rw [h2, h3]

theorem axisBounds_eq_of_empty_kept (dim total : Nat) (count : Nat → Nat)
    (m : Nat) (h : listMax (zeroList dim count) = some m)
    (h2 : listMin (keptList total count m) = none) :
    axisBounds dim total count = (0, dim) := by
  have h3 : listMax (keptList total count m) = none := by
    rw [listMax_eq_none]
    exact listMin_eq_none.mp h2
  unfold axisBounds
  rw [h]
  show (match listMin (keptList total count m),
      listMax (keptList total count m) with
    | some lo, some hi => (lo, hi + 1)
    | _, _ => (0, dim)) = (0, dim)
  rw [h2, h3]

theorem axisBounds_full (dim total : Nat) (count : Nat → Nat)
    (h : ∀ i < dim, count i = 0) : axisBounds dim total count = (0, dim) := by
  apply axisBounds_eq_of_no_zero
  have hz : zeroList dim count = [] := by
    rw [zeroList, List.filter_eq_nil_iff]
    intro a ha
    have := h a (List.mem_range.mp ha)
    simp [this]
  rw [hz]
  rfl

theorem axisBounds_mem (dim total : Nat) (count : Nat → Nat) (hdim : 0 < dim) :
    (axisBounds dim total count).1 < (axisBounds dim total count).2 ∧
      (axisBounds dim total count).2 ≤ dim := by
  cases hz : listMax (zeroList dim count) with
  | none =>
    rw [axisBounds_eq_of_no_zero dim total count hz]
    exact ⟨hdim, le_refl dim⟩
  | some m =>
    have hm : m < dim := by
      have h1 := listMax_mem hz
      rw [zeroList, List.mem_filter] at h1
      exact List.mem_range.mp h1.1
    cases hmin : listMin (keptList total count m) with
    | none =>
      rw [axisBounds_eq_of_empty_kept dim total count m hz hmin]
      exact ⟨hdim, le_refl dim⟩
    | some lo =>
      cases hmax : listMax (keptList total count m) with
      | none =>
        rw [listMax_eq_none] at hmax
        rw [hmax] at hmin
        simp [listMin] at hmin
      | some hi =>
        rw [axisBounds_eq_of_kept dim total count m lo hi hz hmin hmax]
        have hlohi : lo ≤ hi := le_listMax hmax lo (listMin_mem hmin)
        have hhi : hi < m + 1 := by
          have h1 := listMax_mem hmax
          rw [keptList, List.mem_filter] at h1
          exact List.mem_range.mp h1.1
        exact ⟨by omega, by omega⟩

theorem axisBounds_core (dim total : Nat) (count : Nat → Nat) (lo hi : Nat)
    (htot : 0 < total) (hle : lo ≤ hi) (hhi : hi + 1 < dim)
    (hout : ∀ i < dim, (i < lo ∨ hi < i) → count i = total)
    (hin : ∀ i < dim, lo ≤ i → i ≤ hi → count i < total) :
    axisBounds dim total count = (lo, hi + 1) := by
  have hcnt_top : count (dim - 1) = total :=
    hout (dim - 1) (by omega) (Or.inr (by omega))
  have hz : listMax (zeroList dim count) = some (dim - 1) := by
    apply listMax_eq_of
    · rw [zeroList, List.mem_filter]
      refine ⟨List.mem_range.mpr (by omega), ?_⟩
      simp [hcnt_top]
      omega
    · intro b hb
      rw [zeroList, List.mem_filter] at hb
      have := List.mem_range.mp hb.1
      omega
  have hrange : dim - 1 + 1 = dim := by omega
  have hmin : listMin (keptList total count (dim - 1)) = some lo := by
    apply listMin_eq_of
    · rw [keptList, hrange, List.mem_filter]
      refine ⟨List.mem_range.mpr (by omega), ?_⟩
      simp
      exact hin lo (by omega) le_rfl hle
    · intro b hb
      rw [keptList, hrange, List.mem_filter] at hb
      obtain ⟨hb1, hb2⟩ := hb
      simp at hb2
      by_contra hlt
      push_neg at hlt
      have := hout b (List.mem_range.mp hb1) (Or.inl hlt)
      omega
  have hmax : listMax (keptList total count (dim - 1)) = some hi := by
    apply listMax_eq_of
    · rw [keptList, hrange, List.mem_filter]
      refine ⟨List.mem_range.mpr (by omega), ?_⟩
      simp
      exact hin hi (by omega) hle le_rfl
    · intro b hb
      rw [keptList, hrange, List.mem_filter] at hb
      obtain ⟨hb1, hb2⟩ := hb
      simp at hb2
      by_contra hlt
      push_neg at hlt
      have := hout b (List.mem_range.mp hb1) (Or.inr hlt)
      omega
  exact axisBounds_eq_of_kept dim total count (dim - 1) lo hi hz hmin hmax

theorem sitkCrop_zero (image : Vol) : sitkCrop image 0 0 0 0 0 0 = image := by
  unfold sitkCrop
  cases image
  simp

theorem crop_scans_eq_map (reference : Vol) (inputs : List Vol) :
    crop_scans reference inputs =
      inputs.map (fun image =>
        sitkCrop image (xBounds reference).1 (yBounds reference).1
          (zBounds reference).1 (reference.xdim - (xBounds reference).2)
          (reference.ydim - (yBounds reference).2)
          (reference.zdim - (zBounds reference).2)) := rfl

/-- C1: the claim fails on the code.  On the 4 × 1 × 1 volume with voxel
values 0, 5, 0, 7 along x, find_zeros returns the x-interval [1, 2): the
non-zero voxel at x = 3 lies outside it, even though its plane is not
uniformly zero (so the claim's kept-index criterion would make the upper
bound 4).  np.bincount of the zero positions stops at the largest
zero-holding index, so trailing all-non-zero planes are never "kept". -/
theorem find_zeros_misses_nonzero_plane :
    find_zeros vTrunc = (1, 2, 0, 1, 0, 1) ∧
      vTrunc.data 3 0 0 ≠ 0 ∧ 3 < vTrunc.xdim ∧ ¬ (1 ≤ 3 ∧ 3 < 2) ∧
      xZeroCount vTrunc 3 < vTrunc.ydim * vTrunc.zdim := by
  refine ⟨by decide, by decide, by decide, by decide, by decide⟩

/-- C3: on a volume whose non-zero core is strictly surrounded by zero
padding on every axis (every plane outside the core uniformly zero, every
plane meeting the core holding a non-zero voxel), find_zeros returns
exactly the core's extent: first core index and one past the last core
index, per axis. -/
theorem find_zeros_padded_core (v : Vol) (xlo xhi ylo yhi zlo zhi : Nat)
    (hx1 : 1 ≤ xlo) (hx2 : xhi + 1 < v.xdim) (hx3 : xlo ≤ xhi)
    (hy1 : 1 ≤ ylo) (hy2 : yhi + 1 < v.ydim) (hy3 : ylo ≤ yhi)
    (hz1 : 1 ≤ zlo) (hz2 : zhi + 1 < v.zdim) (hz3 : zlo ≤ zhi)
    (hxz : ∀ i < v.xdim, (i < xlo ∨ xhi < i) →
      ∀ j < v.ydim, ∀ k < v.zdim, v.data i j k = 0)
    (hxn : ∀ i < v.xdim, xlo ≤ i → i ≤ xhi →
      ∃ j < v.ydim, ∃ k < v.zdim, v.data i j k ≠ 0)
    (hyz : ∀ j < v.ydim, (j < ylo ∨ yhi < j) →
      ∀ i < v.xdim, ∀ k < v.zdim, v.data i j k = 0)
    (hyn : ∀ j < v.ydim, ylo ≤ j → j ≤ yhi →
      ∃ i < v.xdim, ∃ k < v.zdim, v.data i j k ≠ 0)
    (hzz : ∀ k < v.zdim, (k < zlo ∨ zhi < k) →
      ∀ i < v.xdim, ∀ j < v.ydim, v.data i j k = 0)
    (hzn : ∀ k < v.zdim, zlo ≤ k → k ≤ zhi →
      ∃ i < v.xdim, ∃ j < v.ydim, v.data i j k ≠ 0) :
    find_zeros v = (xlo, xhi + 1, ylo, yhi + 1, zlo, zhi + 1) := by
  obtain ⟨j0, hj0, k0, hk0, _⟩ := hxn xlo (by omega) le_rfl hx3
  obtain ⟨i0, hi0, k1, hk1, _⟩ := hyn ylo (by omega) le_rfl hy3
  have hxb : xBounds v = (xlo, xhi + 1) := by
    unfold xBounds
    apply axisBounds_core v.xdim (v.ydim * v.zdim) (xZeroCount v) xlo xhi
      (Nat.mul_pos (by omega) (by omega)) hx3 hx2
    · intro i hi hs
      unfold xZeroCount
      exact planeZeroCount_eq_total v.ydim v.zdim _ (hxz i hi hs)
    · intro i hi h1 h2
      unfold xZeroCount
      exact (planeZeroCount_lt_iff v.ydim v.zdim _).mpr (hxn i hi h1 h2)
  have hyb : yBounds v = (ylo, yhi + 1) := by
    unfold yBounds
    apply axisBounds_core v.ydim (v.xdim * v.zdim) (yZeroCount v) ylo yhi
      (Nat.mul_pos (by omega) (by omega)) hy3 hy2
    · intro j hj hs
      unfold yZeroCount
      exact planeZeroCount_eq_total v.xdim v.zdim _ (hyz j hj hs)
    · intro j hj h1 h2
      unfold yZeroCount
      exact (planeZeroCount_lt_iff v.xdim v.zdim _).mpr (hyn j hj h1 h2)
  have hzb : zBounds v = (zlo, zhi + 1) := by
    unfold zBounds
    apply axisBounds_core v.zdim (v.xdim * v.ydim) (zZeroCount v) zlo zhi
      (Nat.mul_pos (by omega) (by omega)) hz3 hz2
    · intro k hk hs
      unfold zZeroCount
      exact planeZeroCount_eq_total v.xdim v.ydim _ (hzz k hk hs)
    · intro k hk h1 h2
      unfold zZeroCount
      exact (planeZeroCount_lt_iff v.xdim v.ydim _).mpr (hzn k hk h1 h2)
  unfold find_zeros
  rw [hxb, hyb, hzb]

/-- C3 witness: the centred 3 × 3 × 3 core volume. -/
theorem find_zeros_padded_core_witness :
    find_zeros vCore = (1, 2, 1, 2, 1, 2) :=
  find_zeros_padded_core vCore 1 1 1 1 1 1 (by decide) (by decide) (by decide)
    (by decide) (by decide) (by decide) (by decide) (by decide) (by decide)
    (by decide) (by decide) (by decide) (by decide) (by decide) (by decide)

/-- C5: on a reference volume with no zero voxel at all, find_zeros returns
the full extent (0, dim) on every axis, so the low and high trims of
crop_scans are all zero and every output volume equals its input. -/
theorem crop_noop_on_dense (v : Vol) (inputs : List Vol)
    (h : ∀ i < v.xdim, ∀ j < v.ydim, ∀ k < v.zdim, v.data i j k ≠ 0) :
    find_zeros v = (0, v.xdim, 0, v.ydim, 0, v.zdim) ∧
      crop_scans v inputs = inputs := by
  have hxb : xBounds v = (0, v.xdim) := by
    unfold xBounds
    apply axisBounds_full
    intro i hi
    unfold xZeroCount
    exact planeZeroCount_eq_zero v.ydim v.zdim _
      (fun j hj k hk => h i hi j hj k hk)
  have hyb : yBounds v = (0, v.ydim) := by
    unfold yBounds
    apply axisBounds_full
    intro j hj
    unfold yZeroCount
    exact planeZeroCount_eq_zero v.xdim v.zdim _
      (fun i hi k hk => h i hi j hj k hk)
  have hzb : zBounds v = (0, v.zdim) := by
    unfold zBounds
    apply axisBounds_full
    intro k hk
    unfold zZeroCount
    exact planeZeroCount_eq_zero v.xdim v.ydim _
      (fun i hi j hj => h i hi j hj k hk)
  refine ⟨?_, ?_⟩
  · unfold find_zeros
    rw [hxb, hyb, hzb]
  · rw [crop_scans_eq_map, hxb, hyb, hzb]
    simp [Nat.sub_self, sitkCrop_zero]

/-- C5 witness: a dense 2 × 2 × 2 volume is returned unchanged. -/
theorem crop_noop_on_dense_witness :
    crop_scans vDense [vDense] = [vDense] :=
  (crop_noop_on_dense vDense [vDense] (by decide)).2

/-- C10: on any volume with strictly positive dimensions, find_zeros
returns on each axis a pair with min < max ≤ dim (kept path and both
fallback paths), so the low trim (min) plus the high trim (dim − max)
computed by crop_scans is strictly less than the axis dimension, and every
cropped output of a same-shaped input keeps at least one voxel per axis. -/
theorem find_zeros_in_range (v : Vol) (inputs : List Vol)
    (hx : 0 < v.xdim) (hy : 0 < v.ydim) (hz : 0 < v.zdim)
    (hdims : ∀ image ∈ inputs,
      image.xdim = v.xdim ∧ image.ydim = v.ydim ∧ image.zdim = v.zdim) :
    ((xBounds v).1 < (xBounds v).2 ∧ (xBounds v).2 ≤ v.xdim) ∧
      ((yBounds v).1 < (yBounds v).2 ∧ (yBounds v).2 ≤ v.ydim) ∧
      ((zBounds v).1 < (zBounds v).2 ∧ (zBounds v).2 ≤ v.zdim) ∧
      (xBounds v).1 + (v.xdim - (xBounds v).2) < v.xdim ∧
      (yBounds v).1 + (v.ydim - (yBounds v).2) < v.ydim ∧
      (zBounds v).1 + (v.zdim - (zBounds v).2) < v.zdim ∧
      ∀ w ∈ crop_scans v inputs, 1 ≤ w.xdim ∧ 1 ≤ w.ydim ∧ 1 ≤ w.zdim := by
  have hxb := axisBounds_mem v.xdim (v.ydim * v.zdim) (xZeroCount v) hx
  have hyb := axisBounds_mem v.ydim (v.xdim * v.zdim) (yZeroCount v) hy
  have hzb := axisBounds_mem v.zdim (v.xdim * v.ydim) (zZeroCount v) hz
  rw [show axisBounds v.xdim (v.ydim * v.zdim) (xZeroCount v) = xBounds v
    from rfl] at hxb
  rw [show axisBounds v.ydim (v.xdim * v.zdim) (yZeroCount v) = yBounds v
    from rfl] at hyb
  rw [show axisBounds v.zdim (v.xdim * v.ydim) (zZeroCount v) = zBounds v
    from rfl] at hzb
  refine ⟨hxb, hyb, hzb, by omega, by omega, by omega, ?_⟩
  intro w hw
  rw [crop_scans_eq_map, List.mem_map] at hw
  obtain ⟨image, himg, rfl⟩ := hw
  obtain ⟨hdx, hdy, hdz⟩ := hdims image himg
  unfold sitkCrop
  refine ⟨?_, ?_, ?_⟩ <;> simp <;> omega

/-- C10 witness: the bounds are well-formed on a concrete volume. -/
theorem find_zeros_in_range_witness :
    (xBounds vTrunc).1 < (xBounds vTrunc).2 :=
  (find_zeros_in_range vTrunc [vTrunc] (by decide) (by decide) (by decide)
      (by
        intro im him
        rw [List.mem_singleton] at him
        subst him
        exact ⟨rfl, rfl, rfl⟩)).1.1

/-- C2: every non-reference modality gets exactly one coregistration action,
and that action is the one the spec's three-boolean branch table picks for
(to_mni, do_coregistration, is_reference = false). -/
theorem coreg_unique_action (mods : List String) (ref : String)
    (tm dc : Bool) (mod : String) (hnd : mods.Nodup) (hmem : mod ∈ mods)
    (hne : mod ≠ ref) :
    (runCoregistration mods ref tm dc).filter (fun e => e.modality == mod) =
      [{ modality := mod, action := specFiveBranchTable tm dc false }] := by
  have hact : nonReferenceAction tm dc = specFiveBranchTable tm dc false := by
    cases tm <;> cases dc <;> rfl
  unfold runCoregistration
  rw [List.filter_cons]
  have h1 : (({ modality := ref, action := referenceAction tm } :
      CoregEvent).modality == mod) = false := by
    show (ref == mod) = false
    rw [beq_eq_false_iff_ne]
    exact fun h => hne h.symm
  rw [h1]
  simp only [Bool.false_eq_true, if_false]
  rw [List.filter_map]
  have hpf : ((fun e : CoregEvent => e.modality == mod) ∘
      (fun m => ({ modality := m, action := nonReferenceAction tm dc } :
        CoregEvent))) = (fun m => m == mod) := rfl
  rw [hpf]
  rw [List.filter_beq]
  rw [List.count_erase_of_ne hne, List.count_eq_one_of_mem hnd hmem]
  simp [hact]

/-- C2 witness: with to_mni and do_coregistration both set, the single
action for the non-reference modality T2 is the anchor-chain reuse. -/
theorem coreg_unique_action_witness :
    (runCoregistration ["T1", "T2"] "T1" true true).filter
        (fun e => e.modality == "T2") =
      [{ modality := "T2", action := specFiveBranchTable true true false }] :=
  coreg_unique_action ["T1", "T2"] "T1" true true "T2" (by decide) (by decide)
    (by decide)

/-- C4: after _apply_mask, voxels where the mask is 0 are 0 and voxels
where the mask is 1 equal the nearest-neighbor-resampled input voxel
unchanged; the resampled image's spatial metadata is preserved. -/
theorem apply_mask_spec (resample : NiftiImage → NiftiImage → NiftiImage)
    (input_img ref_img mask : NiftiImage) (i j k : Nat) :
    (mask.vol.data i j k = 0 →
        (apply_mask resample input_img ref_img mask).vol.data i j k = 0) ∧
      (mask.vol.data i j k = 1 →
        (apply_mask resample input_img ref_img mask).vol.data i j k =
          (resample input_img ref_img).vol.data i j k) ∧
      (apply_mask resample input_img ref_img mask).affine =
        (resample input_img ref_img).affine := by
  refine ⟨?_, ?_, rfl⟩
  · intro h
    show (if mask.vol.data i j k = 0 then 0
      else (resample input_img ref_img).vol.data i j k) = 0
    rw [if_pos h]
  · intro h
    show (if mask.vol.data i j k = 0 then 0
      else (resample input_img ref_img).vol.data i j k) = _
    rw [if_neg (by rw [h]; exact one_ne_zero)]

/-- C4 witness: a concrete mask zeroes the x = 0 voxel and keeps the
x = 1 voxel of the resampled image. -/
theorem apply_mask_spec_witness :
    (apply_mask (fun a _ => a) wImg wImg wMask).vol.data 0 0 0 = 0 ∧
      (apply_mask (fun a _ => a) wImg wImg wMask).vol.data 1 0 0 =
        ((fun (a : NiftiImage) (_ : NiftiImage) => a) wImg wImg).vol.data
          1 0 0 :=
  ⟨(apply_mask_spec (fun a _ => a) wImg wImg wMask 0 0 0).1 (by decide),
    (apply_mask_spec (fun a _ => a) wImg wImg wMask 1 0 0).2.1 (by decide)⟩

/-- C7: run executes coregistration first and unconditionally, the
skull-stripping stage exactly when do_skull_stripping is set, the cropping
stage exactly when crop is set, in that order and nothing else. -/
theorem run_stage_order (dss c : Bool) :
    (runStages dss c).head? = some Stage.coregistration ∧
      Stage.coregistration ∈ runStages dss c ∧
      (Stage.skullstripping ∈ runStages dss c ↔ dss = true) ∧
      (Stage.cropping ∈ runStages dss c ↔ c = true) ∧
      (runStages dss c).Sublist
        [Stage.coregistration, Stage.skullstripping, Stage.cropping] ∧
      (runStages dss c).Nodup := by
  cases dss <;> cases c <;> decide

/-- C8: with skull-stripping disabled the resolved skull-strip folder is
the coregistration folder itself, so every cropping input lies in the
coregistration folder; with it enabled the skull-strip folder is a distinct
skullstripping directory. -/
theorem skullstrip_folder_alias (o : DirPath) (c : Bool) (pre : String)
    (mods : List String) (lab : Bool) :
    (resolveFolders o false c).skullstrip_folder =
        (resolveFolders o false c).coregistration_folder ∧
      (∀ p ∈ croppingInputPaths (resolveFolders o false c) pre mods lab,
        ∃ f, p = (resolveFolders o false c).coregistration_folder ++ [f]) ∧
      (resolveFolders o true c).skullstrip_folder =
        o ++ ["skullstripping"] ∧
      (resolveFolders o true c).skullstrip_folder ≠
        (resolveFolders o true c).coregistration_folder := by
  refine ⟨rfl, ?_, rfl, ?_⟩
  · intro p hp
    unfold croppingInputPaths at hp
    rw [List.mem_append] at hp
    rcases hp with hp | hp
    · rw [List.mem_map] at hp
      obtain ⟨mod, _, rfl⟩ := hp
      exact ⟨pre ++ mod ++ ".nii.gz", rfl⟩
    · cases lab with
      | false => simp at hp
      | true =>
        rw [if_pos rfl, List.mem_singleton] at hp
        exact ⟨pre ++ "Label.nii.gz", hp⟩
  · intro h
    have h2 : (["skullstripping"] : List String) = ["coregistration"] :=
      List.append_cancel_left h
    simp at h2

/-- C8 witness: a concrete cropping input path sits in the coregistration
folder when skull-stripping is disabled. -/
theorem skullstrip_folder_alias_witness :
    ∃ f, (["out", "coregistration", "preT1.nii.gz"] : DirPath) =
      (resolveFolders ["out"] false false).coregistration_folder ++ [f] :=
  (skullstrip_folder_alias ["out"] false "pre" ["T1"] false).2.1
    ["out", "coregistration", "preT1.nii.gz"] (by decide)

theorem checkImages_isOk (fs : String → Bool)
    (subject : List (String × String)) :
    (checkImages fs subject).isOk = true ↔ ∀ p ∈ subject, fs p.2 = true := by
  unfold checkImages
  cases hf : subject.find? (fun p => ! fs p.2) with
  | none =>
    rw [List.find?_eq_none] at hf
    refine iff_of_true rfl fun p hp => ?_
    simpa using hf p hp
  | some p =>
    have h1 := List.find?_some hf
    have h2 := List.mem_of_find?_eq_some hf
    refine iff_of_false (fun h => Bool.noConfusion h) fun hall => ?_
    have h3 := hall p h2
    rw [h3] at h1
    simp at h1

theorem checkLabel_isOk (fs : String → Bool) (label : Option String) :
    (checkLabel fs label).isOk = true ↔
      ∀ lp, label = some lp → fs lp = true := by
  cases label with
  | none => exact iff_of_true rfl fun lp h => Option.noConfusion h
  | some lp =>
    unfold checkLabel
    cases hf : fs lp with
    | true =>
      refine iff_of_true ?_ fun lp2 h => (Option.some.inj h) ▸ hf
      show (if fs lp = true then (Except.ok () : Except InitError Unit)
        else Except.error InitError.missingLabel).isOk = true
      rw [if_pos hf]
      rfl
    | false =>
      refine iff_of_false ?_ fun hall => ?_
      · show ¬ ((if fs lp = true then (Except.ok () : Except InitError Unit)
          else Except.error InitError.missingLabel).isOk = true)
        rw [if_neg (by rw [hf]; exact Bool.false_ne_true)]
        exact fun h => Bool.noConfusion h
      · have := hall lp rfl
        rw [this] at hf
        exact Bool.noConfusion hf

theorem chooseReference_isOk (mods : List String) (reference : Option String)
    (hne : mods ≠ []) :
    (chooseReference mods reference).isOk = true ↔
      ∀ r, reference = some r → r ∈ mods := by
  cases reference with
  | none =>
    have hps : pySorted mods ≠ [] := by
      intro h
      apply hne
      have hp := List.perm_insertionSort pyLe mods
      rw [show List.insertionSort pyLe mods = pySorted mods from rfl] at hp
      rw [h] at hp
      exact List.perm_nil.mp hp.symm
    cases hs : pySorted mods with
    | nil => exact absurd hs hps
    | cons r t =>
      unfold chooseReference
      rw [hs]
      exact iff_of_true rfl fun r2 h => Option.noConfusion h
  | some r =>
    unfold chooseReference
    by_cases hr : r ∈ mods
    · refine iff_of_true ?_ fun r2 h => (Option.some.inj h) ▸ hr
      show (if r ∈ mods then (Except.ok r : Except InitError String)
        else Except.error InitError.badReference).isOk = true
      rw [if_pos hr]
      rfl
    · refine iff_of_false ?_ fun hall => hr (hall r rfl)
      show ¬ ((if r ∈ mods then (Except.ok r : Except InitError String)
        else Except.error InitError.badReference).isOk = true)
      rw [if_neg hr]
      exact fun h => Bool.noConfusion h

/-- C6: with a non-empty subject mapping (the Subject data-model
invariant), construction succeeds exactly when every subject image path
exists, the label path (when supplied) exists, and the explicit reference
(when supplied) is a key of the mapping; the validation itself performs no
stage processing (stages run only from runStages / runCoregistration). -/
theorem init_validates_preconditions (fs : String → Bool)
    (subject : List (String × String)) (label : Option String)
    (reference : Option String) (hne : subject ≠ []) :
    (initPreprocessor fs subject label reference).isOk = true ↔
      ((∀ p ∈ subject, fs p.2 = true) ∧
        (∀ lp, label = some lp → fs lp = true) ∧
        (∀ r, reference = some r → r ∈ subject.map Prod.fst)) := by
  have hmne : subject.map Prod.fst ≠ [] := by
    intro h
    exact hne (List.map_eq_nil_iff.mp h)
  have h1 := chooseReference_isOk (subject.map Prod.fst) reference hmne
  have h2 := checkImages_isOk fs subject
  have h3 := checkLabel_isOk fs label
  unfold initPreprocessor
  cases hcr : chooseReference (subject.map Prod.fst) reference with
  | error e =>
    rw [hcr] at h1
    refine iff_of_false (fun h => Bool.noConfusion h) ?_
    rintro ⟨hA, hB, hC⟩
    exact Bool.noConfusion (h1.mpr hC)
  | ok ref =>
    rw [hcr] at h1
    cases hci : checkImages fs subject with
    | error e =>
      rw [hci] at h2
      refine iff_of_false (fun h => Bool.noConfusion h) ?_
      rintro ⟨hA, hB, hC⟩
      exact Bool.noConfusion (h2.mpr hA)
    | ok u =>
      rw [hci] at h2
      cases hcl : checkLabel fs label with
      | error e =>
        rw [hcl] at h3
        refine iff_of_false (fun h => Bool.noConfusion h) ?_
        rintro ⟨hA, hB, hC⟩
        exact Bool.noConfusion (h3.mpr hB)
      | ok u2 =>
        rw [hcl] at h3
        exact iff_of_true rfl ⟨h2.mp rfl, h3.mp rfl, h1.mp rfl⟩

/-- C6 witness: construction succeeds on a concrete valid configuration. -/
theorem init_validates_preconditions_witness :
    (initPreprocessor wfs wsubject (some "lab.nii") (some "T1")).isOk =
      true :=
  (init_validates_preconditions wfs wsubject (some "lab.nii") (some "T1")
      (by decide)).mpr
    ⟨by decide,
      by
        intro lp h
        injection h with h2
        subst h2
        decide,
      by
        intro r h
        injection h with h2
        subst h2
        decide⟩

/-- C9: when the reference argument is None, the chosen reference is the
lexicographically smallest modality name (the first element of the sorted
key list). -/
theorem default_reference_lex_min (mods : List String) (hne : mods ≠ []) :
    ∃ r, chooseReference mods none = Except.ok r ∧ r ∈ mods ∧
      ∀ m ∈ mods, pyLe r m := by
  have hperm := List.perm_insertionSort pyLe mods
  rw [show List.insertionSort pyLe mods = pySorted mods from rfl] at hperm
  cases hs : pySorted mods with
  | nil =>
    exfalso
    apply hne
    rw [hs] at hperm
    exact List.perm_nil.mp hperm.symm
  | cons r t =>
    refine ⟨r, ?_, ?_, ?_⟩
    · unfold chooseReference
      rw [hs]
    · have hr : r ∈ pySorted mods := by
        rw [hs]
        exact List.mem_cons_self r t
      exact hperm.mem_iff.mp hr
    · intro m hm
      have hsorted : List.Sorted pyLe (pySorted mods) :=
        List.sorted_insertionSort pyLe mods
      have hm2 : m ∈ pySorted mods := hperm.mem_iff.mpr hm
      rw [hs] at hm2 hsorted
      rcases List.mem_cons.mp hm2 with rfl | hmt
      · show m.data ≤ m.data
        exact le_rfl
      · exact (List.sorted_cons.mp hsorted).1 m hmt

/-- C9 witness: on the concrete modality list T2, T1 the chosen default
reference is the lexicographic minimum. -/
theorem default_reference_lex_min_witness :
    ∃ r, chooseReference ["T2", "T1"] none = Except.ok r ∧
      r ∈ ["T2", "T1"] ∧ ∀ m ∈ ["T2", "T1"], pyLe r m :=
  default_reference_lex_min ["T2", "T1"] (by decide)

end Radye
